import Mathlib

/-!
Shallow embedding of the vibescroll feed controller (`useTopicFeed` in
`src/hooks/useSwipeGestures.ts` and the highlight renderer `HighlightedText`),
together with theorems settling the specification claims about it.

Conventions of the embedding:
* TypeScript `Record<string, T>` objects are modelled as association lists
  (`JsRecord`) where a later write shadows earlier entries.
* JS `string | null` fields are `Option String`; JS truthiness (under which
  `null`, `undefined` and `""` are all falsy) is modelled explicitly.
* Network calls are modelled by passing the eventual response as an explicit
  argument (`FetchResult`); an operation additionally reports whether it
  issued a request.
* JS string indices are modelled at character granularity.
-/

set_option autoImplicit false
set_option maxRecDepth 8000

namespace VibeScroll

/-- Character-level model of `String.prototype.toLowerCase` (ASCII case map,
which covers every string the controller handles). -/
def strToLower (s : String) : String :=
  ⟨s.data.map Char.toLower⟩

/-- Character-level model of `String.prototype.trim`: strip whitespace from
both ends. -/
def strTrim (s : String) : String :=
  ⟨((s.data.dropWhile Char.isWhitespace).reverse.dropWhile Char.isWhitespace).reverse⟩

/-- Character-level model of `String.prototype.slice(0, n)` / `take`. -/
def strTake (s : String) (n : Nat) : String :=
  ⟨s.data.take n⟩

/-- Character-level model of `String.prototype.slice(n)` / `drop`. -/
def strDrop (s : String) (n : Nat) : String :=
  ⟨s.data.drop n⟩

/-- Category of a topic (the `TopicCategory` union type in `types`). -/
inductive TopicCategory
  | news | tech | science | finance | culture | politics | health | sports | general
  deriving DecidableEq, Repr

/-- Span of text in a topic's content flagged as explorable (`TopicHighlight`).
`startIndex`/`endIndex` are character offsets into the content; the pair
`(0, 0)` is a sentinel meaning "not yet located". -/
structure TopicHighlight where
  id : String
  text : String
  startIndex : Nat
  endIndex : Nat
  preloadedExpansion : Option String := none
  deriving DecidableEq, Repr

/-- Deep-dive expansion payload (`TopicExpansion`). -/
structure TopicExpansion where
  fullContent : String
  additionalContext : String
  relatedTopics : List String
  deriving DecidableEq, Repr

/-- One unit of feed content (`Topic`). The JS `Date` timestamp is modelled
as milliseconds since the epoch. -/
structure Topic where
  id : String
  title : String
  summary : String
  content : String
  source : String
  sourceUrl : String
  timestamp : Nat
  category : TopicCategory
  highlights : List TopicHighlight
  expansion : Option TopicExpansion := none
  deriving DecidableEq, Repr

/-- Directional command (`SwipeDirection`). -/
inductive SwipeDirection
  | up | down | left | right
  deriving DecidableEq, Repr

/-- Disclosure depth for the current topic (`ViewDepth`). -/
inductive ViewDepth
  | summary | expanded | detail
  deriving DecidableEq, Repr

/-- Visual direction flag stored in feed state (the `direction: "up" | "down"` field). -/
inductive VerticalDirection
  | up | down
  deriving DecidableEq, Repr

/-- Whether the last fetch came from live services or demo fallback content. -/
inductive FeedMode
  | live | demo
  deriving DecidableEq, Repr

/-- JS `Record<string, α>` modelled as an association list; a later write is
consed on the front and shadows earlier entries. -/
abbrev JsRecord (α : Type) : Type := List (String × α)

/-- First (most recent) value stored under `key`, if any. -/
def JsRecord.lookup {α : Type} : JsRecord α → String → Option α
  | [], _ => none
  | (k, v) :: rest, key => if k = key then some v else JsRecord.lookup rest key

/-- Write `key ↦ v` (spread-update `{ ...record, [key]: v }` in the source). -/
def JsRecord.set {α : Type} (r : JsRecord α) (key : String) (v : α) : JsRecord α :=
  (key, v) :: r

/-- Truthiness of a JS `string | null` value: `null` and `""` are falsy. -/
def strTruthy : Option String → Bool
  | some s => s != ""
  | none => false

/-- Truthiness of `cache[key]` where the record's values may themselves be
`undefined` (stored as `none`): the read is truthy exactly when an entry is
present, defined, and a non-empty string. -/
def cacheTruthy (cache : JsRecord (Option String)) (key : String) : Bool :=
  match cache.lookup key with
  | some (some s) => s != ""
  | _ => false

/-- Feed controller state (`TopicFeedState` in `useSwipeGestures.ts`).
`conceptCache` values are `Option String` because a preload completion can
store `data.content` even when that JSON field is absent (`undefined`). -/
structure TopicFeedState where
  topics : List Topic
  currentIndex : Nat
  depth : ViewDepth
  isLoading : Bool
  isLoadingMore : Bool
  error : Option String
  expandedContent : JsRecord String
  detailContent : JsRecord String
  direction : VerticalDirection
  currentConcept : Option String
  conceptContent : Option String
  isExploringConcept : Bool
  conceptCache : JsRecord (Option String)
  mode : FeedMode
  hasMore : Bool
  deriving DecidableEq, Repr

/-- The `clearConceptExploration` callback: resets the concept overlay fields. -/
def clearConceptExploration (s : TopicFeedState) : TopicFeedState :=
  { s with currentConcept := none, conceptContent := none, isExploringConcept := false }

/-- The `navigate` callback, as a pure state transition. The source first
tests `state.currentConcept && direction === "left"` (JS truthiness, so an
empty-string concept does not count as an open overlay) and otherwise
dispatches on the direction; `currentIndex < topics.length - 1` uses
truncated subtraction exactly like the JS expression on numbers `≥ 0`. -/
def navigate (s : TopicFeedState) (direction : SwipeDirection) : TopicFeedState :=
  if strTruthy s.currentConcept ∧ direction = SwipeDirection.left then
    clearConceptExploration s
  else
    match direction with
    | SwipeDirection.down =>
        if s.currentIndex < s.topics.length - 1 then
          { s with currentIndex := s.currentIndex + 1
                 , depth := ViewDepth.summary
                 , direction := VerticalDirection.down
                 , currentConcept := none
                 , conceptContent := none }
        else s
    | SwipeDirection.up =>
        if s.currentIndex > 0 then
          { s with currentIndex := s.currentIndex - 1
                 , depth := ViewDepth.summary
                 , direction := VerticalDirection.up
                 , currentConcept := none
                 , conceptContent := none }
        else s
    | SwipeDirection.right =>
        match s.depth with
        | ViewDepth.summary => { s with depth := ViewDepth.expanded }
        | ViewDepth.expanded => { s with depth := ViewDepth.detail }
        | ViewDepth.detail => s
    | SwipeDirection.left =>
        match s.depth with
        | ViewDepth.detail => { s with depth := ViewDepth.expanded }
        | ViewDepth.expanded => { s with depth := ViewDepth.summary }
        | ViewDepth.summary => s

/-- Initial controller state (the `useState` initializer). -/
def initialFeedState : TopicFeedState where
  topics := []
  currentIndex := 0
  depth := ViewDepth.summary
  isLoading := true
  isLoadingMore := false
  error := none
  expandedContent := []
  detailContent := []
  direction := VerticalDirection.down
  currentConcept := none
  conceptContent := none
  isExploringConcept := false
  conceptCache := []
  mode := FeedMode.demo
  hasMore := true

/-- Outcome of an awaited network call: `ok content` is a 2xx response whose
parsed JSON carried `content` (which may be absent, i.e. `none`); `err`
covers both a non-ok status and a thrown fetch/parse error. -/
inductive FetchResult
  | ok (content : Option String)
  | err
  deriving DecidableEq, Repr

/-- The cache key computed at the top of `exploreConcept`:
`concept.toLowerCase().trim()`. -/
def normalizeConcept (concept : String) : String :=
  strTrim (strToLower concept)

/-- State written by `exploreConcept` before awaiting the fetch on a cache
miss (the second `setState` in the source). -/
def exploreLoadingState (s : TopicFeedState) (concept : String) : TopicFeedState :=
  { s with currentConcept := some concept
         , conceptContent := none
         , isExploringConcept := true }

/-- First phase of `exploreConcept`: either a synchronous cache hit
(no request issued) or the loading state together with an issued request. -/
inductive ExploreStep
  | cacheHit (s : TopicFeedState)
  | fetchIssued (s : TopicFeedState)
  deriving DecidableEq, Repr

/-- Cache test and synchronous branch of `exploreConcept`. The source guard
`if (state.conceptCache[normalizedConcept])` is a JS truthiness test. -/
def exploreConceptStart (s : TopicFeedState) (concept : String) : ExploreStep :=
  let normalizedConcept := normalizeConcept concept
  if cacheTruthy s.conceptCache normalizedConcept then
    ExploreStep.cacheHit
      { s with currentConcept := some concept
             , conceptContent := (s.conceptCache.lookup normalizedConcept).join
             , isExploringConcept := false }
  else
    ExploreStep.fetchIssued (exploreLoadingState s concept)

/-- Completion of `exploreConcept`'s awaited fetch: on success store the
content and cache it under the normalized key; on failure show the fallback
message, leaving the cache untouched. -/
def exploreConceptFinish (s : TopicFeedState) (concept : String)
    (response : FetchResult) : TopicFeedState :=
  let normalizedConcept := normalizeConcept concept
  match response with
  | FetchResult.ok content =>
      { s with conceptContent := content
             , isExploringConcept := false
             , conceptCache := s.conceptCache.set normalizedConcept content }
  | FetchResult.err =>
      { s with conceptContent :=
                 some ("Unable to research \"" ++ concept ++ "\" at this time. Please try again.")
             , isExploringConcept := false }

/-- Whole `exploreConcept(concept)` call under a given eventual `response`,
returning the final state and whether a network request was issued. -/
def exploreConcept (s : TopicFeedState) (concept : String)
    (response : FetchResult) : TopicFeedState × Bool :=
  match exploreConceptStart s concept with
  | ExploreStep.cacheHit s' => (s', false)
  | ExploreStep.fetchIssued s' => (exploreConceptFinish s' concept response, true)

/-- Completion of one speculative concept-prefetch request from
`preloadTopics`: the `.then` handler writes `data.content` into
`conceptCache` under `h.text.toLowerCase()` (lower-cased, not trimmed). -/
def conceptPrefetchStore (s : TopicFeedState) (highlightText : String)
    (content : Option String) : TopicFeedState :=
  { s with conceptCache := s.conceptCache.set (strToLower highlightText) content }

/-- Body of the `for (let i = startIdx; i < endIdx; i++)` loop in
`preloadTopics`, processing the given index list in order. For each index,
if the topic exists and its id is not in the already-requested set, the id
is added to the set and a deep-dive request for it is issued. Returns the
final set and the ids requested, in order. -/
def preloadLoop (preloaded : List String) (topics : List Topic) :
    List Nat → List String × List String
  | [] => (preloaded, [])
  | i :: rest =>
      match topics.get? i with
      | some t =>
          if t.id ∈ preloaded then preloadLoop preloaded topics rest
          else
            let out := preloadLoop (t.id :: preloaded) topics rest
            (out.1, t.id :: out.2)
      | none => preloadLoop preloaded topics rest

/-- Deep-dive request portion of `preloadTopics`: first the current topic
(if present and not already requested), then indices
`currentIndex + 1, …, min (currentIndex + preloadCount + 1) topics.length - 1`.
Returns the updated already-requested set (`preloadedRef`) and the list of
topic ids for which a deep-dive request was issued by this call. -/
def preloadDeepDive (preloaded : List String) (topics : List Topic)
    (currentIndex preloadCount : Nat) : List String × List String :=
  let first :=
    match topics.get? currentIndex with
    | some t =>
        if t.id ∈ preloaded then (preloaded, ([] : List String))
        else (t.id :: preloaded, [t.id])
    | none => (preloaded, ([] : List String))
  let startIdx := currentIndex + 1
  let endIdx := min (currentIndex + preloadCount + 1) topics.length
  let rest := preloadLoop first.1 topics (List.range' startIdx (endIdx - startIdx))
  (rest.1, first.2 ++ rest.2)

/-- Whole-session iteration of the deep-dive prefetch: each step is a
`(topics, currentIndex, preloadCount)` triple at which `preloadTopics` ran;
the already-requested set persists across steps (it is a `useRef`). Returns
the final set and the concatenated request list. -/
def runPreloadSession (preloaded : List String) :
    List (List Topic × Nat × Nat) → List String × List String
  | [] => (preloaded, [])
  | (topics, c, k) :: rest =>
      let step := preloadDeepDive preloaded topics c k
      let tail := runPreloadSession step.1 rest
      (tail.1, step.2 ++ tail.2)

/-- Truncated-title similarity key used by `loadMoreTopics`:
`t.title.toLowerCase().slice(0, 30)`. -/
def titleKey (t : Topic) : String :=
  strTake (strToLower t.title) 30

/-- Duplicate filter of `loadMoreTopics`: keep a batch topic only when
neither its id nor its truncated-title key occurs in the existing list. -/
def newBatchTopics (topics batch : List Topic) : List Topic :=
  let existingIds := topics.map Topic.id
  let existingTitles := topics.map titleKey
  batch.filter fun t =>
    !(existingIds.contains t.id) && !(existingTitles.contains (titleKey t))

/-- The `loadMoreTopics` callback after a successful fetch of `batch`:
filters the batch against the existing list by id and truncated-title key,
then appends the survivors. The leading `if (state.isLoadingMore) return`
guard makes the call a no-op while a load is already in flight. -/
def loadMoreTopics (s : TopicFeedState) (batch : List Topic) : TopicFeedState :=
  if s.isLoadingMore then s
  else
    { s with topics := s.topics ++ newBatchTopics s.topics batch
           , hasMore := true
           , isLoadingMore := false }

/-- Result of reading the persisted feed entry on init: `absent` models a
`null` read, `failure` a thrown read/parse error (caught in the source), and
`entry` a parsed `{topics, currentIndex, timestamp}` object. -/
inductive StorageRead
  | absent
  | failure
  | entry (topics : List Topic) (currentIndex : Nat) (timestamp : Nat)
  deriving DecidableEq, Repr

/-- Age threshold used by `loadFromStorage`: one hour in milliseconds. -/
def oneHour : Nat := 60 * 60 * 1000

/-- The `loadFromStorage` function: returns the hydration payload (or `none`)
and whether the stale entry was removed from storage. A read `failure` is
caught and behaves like an absent entry. The staleness test
`Date.now() - data.timestamp > oneHour` is modelled with truncated
subtraction, which agrees with the JS comparison for all timestamps. -/
def loadFromStorage (now : Nat) : StorageRead → Option (List Topic × Nat) × Bool
  | StorageRead.absent => (none, false)
  | StorageRead.failure => (none, false)
  | StorageRead.entry topics currentIndex timestamp =>
      if now - timestamp > oneHour then (none, true)
      else (some (topics, currentIndex), false)

/-- The `saveToStorage` helper: serialize `{topics, currentIndex,
timestamp}` under the fixed storage key. Its `localStorage.setItem` call can
throw (quota exceeded, privacy mode) — modelled by the `writeOk` oracle —
and the source wraps it in try/catch, so the checkpoint is total ("never
thrown"): a failed write just leaves the previously stored entry in place. -/
def saveToStorage (stored : Option (List Topic × Nat × Nat))
    (topics : List Topic) (currentIndex now : Nat) (writeOk : Bool) :
    Option (List Topic × Nat × Nat) :=
  if writeOk then some (topics, currentIndex, now) else stored

/-- What the init path of `fetchTopics` decides to do: hydrate from the
persisted entry, or proceed to a network fetch. -/
inductive InitAction
  | hydrate (topics : List Topic) (currentIndex : Nat)
  | fetch
  deriving DecidableEq, Repr

/-- Initialization branch of `fetchTopics`: unless a refresh is forced or the
controller is already initialized, try `loadFromStorage`; hydrate only when
it yields a payload with a non-empty topics list (`saved.topics.length > 0`),
otherwise fall through to the network fetch. -/
def fetchTopicsInit (forceRefresh initialized : Bool) (now : Nat)
    (read : StorageRead) : InitAction :=
  if !forceRefresh && !initialized then
    match (loadFromStorage now read).1 with
    | some saved =>
        if saved.1.length > 0 then InitAction.hydrate saved.1 saved.2
        else InitAction.fetch
    | none => InitAction.fetch
  else InitAction.fetch

/-- Character-level slice `s.slice(a, b)` of a JS string. -/
def strSlice (s : String) (a b : Nat) : String :=
  ⟨(s.data.take b).drop a⟩

/-- Index of the first occurrence of `pat` in a character list
(`String.prototype.indexOf`, with `none` standing for `-1`). -/
def charIndexOf (pat : List Char) : List Char → Option Nat
  | [] => if pat = [] then some 0 else none
  | c :: rest =>
      if pat.isPrefixOf (c :: rest) then some 0
      else (charIndexOf pat rest).map (· + 1)

/-- Index of the first occurrence of `pat` in `s` (`s.indexOf(pat)`). -/
def strIndexOf (s pat : String) : Option Nat :=
  charIndexOf pat.data s.data

/-- One segment of rendered topic content (`TextSegment` in
`HighlightedText`). -/
structure TextSegment where
  text : String
  isHighlight : Bool
  highlight : Option TopicHighlight := none
  deriving DecidableEq, Repr

/-- Insertion step of the stable sort of highlights by `startIndex`
(the `[...highlights].sort((a, b) => a.startIndex - b.startIndex)`). -/
def insertByStart (h : TopicHighlight) : List TopicHighlight → List TopicHighlight
  | [] => [h]
  | h' :: rest =>
      if h.startIndex < h'.startIndex then h :: h' :: rest
      else h' :: insertByStart h rest

/-- Stable sort of highlights by `startIndex`. -/
def sortByStart : List TopicHighlight → List TopicHighlight
  | [] => []
  | h :: rest => insertByStart h (sortByStart rest)

/-- Offset resolution for one highlight in `HighlightedText`: when both
indices are the sentinel `0`, locate `text` in `content` (drop the highlight
if it does not occur); otherwise use the stored indices. -/
def resolveHighlight (content : String) (h : TopicHighlight) : Option (Nat × Nat) :=
  if h.startIndex = 0 ∧ h.endIndex = 0 then
    match strIndexOf content h.text with
    | some i => some (i, i + h.text.length)
    | none => none
  else some (h.startIndex, h.endIndex)

/-- Loop body of the `segments` computation in `HighlightedText`, processing
the sorted highlights while tracking `lastIndex`, then appending the
remaining text. -/
def segLoop (content : String) : List TopicHighlight → Nat → List TextSegment
  | [], lastIndex =>
      if lastIndex < content.length then
        [{ text := strDrop content lastIndex, isHighlight := false }]
      else []
  | h :: rest, lastIndex =>
      match resolveHighlight content h with
      | none => segLoop content rest lastIndex
      | some idxs =>
          (if idxs.1 > lastIndex then
            [{ text := strSlice content lastIndex idxs.1, isHighlight := false }]
          else []) ++
          ({ text := strSlice content idxs.1 idxs.2
           , isHighlight := true
           , highlight := some h } :: segLoop content rest idxs.2)

/-- The `segments` value rendered by `HighlightedText`: the whole content as
one plain segment when there are no highlights, otherwise the loop over the
highlights sorted by `startIndex`. -/
def computeSegments (content : String) (highlights : List TopicHighlight) :
    List TextSegment :=
  if highlights.length = 0 then [{ text := content, isHighlight := false }]
  else segLoop content (sortByStart highlights) 0

/-! Concrete data used by witness statements. -/

/-- Minimal topic with a given id, used in concrete states. -/
def sampleTopic (i : String) : Topic where
  id := i
  title := "T" ++ i
  summary := ""
  content := ""
  source := ""
  sourceUrl := ""
  timestamp := 0
  category := TopicCategory.general
  highlights := []

/-- Three-topic feed used by concrete states. -/
def demoTopics : List Topic := [sampleTopic "a", sampleTopic "b", sampleTopic "c"]

/-- Feed state holding `demoTopics`, positioned at index 0. -/
def demoState : TopicFeedState := { initialFeedState with topics := demoTopics }

/-- Feed state holding `demoTopics`, positioned at index 1. -/
def midState : TopicFeedState := { demoState with currentIndex := 1 }

/-! Equation lemmas for `navigate`, one per branch of the source switch. -/

theorem navigate_down_of_lt (s : TopicFeedState)
    (h : s.currentIndex + 1 < s.topics.length) :
    navigate s SwipeDirection.down =
      { s with currentIndex := s.currentIndex + 1
             , depth := ViewDepth.summary
             , direction := VerticalDirection.down
             , currentConcept := none
             , conceptContent := none } := by
  have h' : s.currentIndex < s.topics.length - 1 := by omega
  simp [navigate, h']

theorem navigate_down_of_last (s : TopicFeedState)
    (h : ¬ s.currentIndex + 1 < s.topics.length) :
    navigate s SwipeDirection.down = s := by
  have h' : ¬ s.currentIndex < s.topics.length - 1 := by omega
  simp [navigate, h']

theorem navigate_up_of_pos (s : TopicFeedState) (h : 0 < s.currentIndex) :
    navigate s SwipeDirection.up =
      { s with currentIndex := s.currentIndex - 1
             , depth := ViewDepth.summary
             , direction := VerticalDirection.up
             , currentConcept := none
             , conceptContent := none } := by
  simp [navigate, h]

theorem navigate_up_of_zero (s : TopicFeedState) (h : s.currentIndex = 0) :
    navigate s SwipeDirection.up = s := by
  simp [navigate, h]

theorem navigate_right_eq (s : TopicFeedState) :
    navigate s SwipeDirection.right =
      (match s.depth with
       | ViewDepth.summary => { s with depth := ViewDepth.expanded }
       | ViewDepth.expanded => { s with depth := ViewDepth.detail }
       | ViewDepth.detail => s) := by
  simp [navigate]

theorem navigate_left_overlay (s : TopicFeedState)
    (h : strTruthy s.currentConcept = true) :
    navigate s SwipeDirection.left = clearConceptExploration s := by
  simp [navigate, h]

theorem navigate_left_no_overlay (s : TopicFeedState)
    (h : strTruthy s.currentConcept = false) :
    navigate s SwipeDirection.left =
      (match s.depth with
       | ViewDepth.detail => { s with depth := ViewDepth.expanded }
       | ViewDepth.expanded => { s with depth := ViewDepth.summary }
       | ViewDepth.summary => s) := by
  simp [navigate, h]

/-- Feed state at depth `expanded` whose concept overlay field holds the
empty string (non-null, but falsy in JS). -/
def emptyConceptState : TopicFeedState :=
  { initialFeedState with topics := demoTopics
                        , depth := ViewDepth.expanded
                        , currentConcept := some "" }

/-- C1 counterexample: with `currentConcept = some ""` — non-null, so the
claim requires `left` to close the overlay and leave `depth` unchanged —
the source's truthiness test fails and `left` instead steps the depth from
`expanded` to `summary`, leaving the overlay field untouched. -/
theorem navigate_left_empty_concept_cex :
    emptyConceptState.currentConcept = some "" ∧
    emptyConceptState.depth = ViewDepth.expanded ∧
    (navigate emptyConceptState SwipeDirection.left).depth = ViewDepth.summary ∧
    (navigate emptyConceptState SwipeDirection.left).currentConcept = some "" := by
  decide

/-- C1 (amended): `navigate` implements the specified transition table —
`down` advances and resets depth exactly when `currentIndex + 1 <
length topics` and is otherwise the identity; `up` is the symmetric
decrement with a no-op at 0; `right` steps `summary → expanded → detail`
with a no-op at `detail`; `left` steps back down with a no-op at
`summary` — except that when the concept overlay field is non-null AND
non-empty (JS truthiness), `left` closes the overlay and leaves depth and
index unchanged. -/
theorem navigate_transition_table (s : TopicFeedState) :
    (s.currentIndex + 1 < s.topics.length →
      navigate s SwipeDirection.down =
        { s with currentIndex := s.currentIndex + 1
               , depth := ViewDepth.summary
               , direction := VerticalDirection.down
               , currentConcept := none
               , conceptContent := none }) ∧
    (¬ s.currentIndex + 1 < s.topics.length → navigate s SwipeDirection.down = s) ∧
    (0 < s.currentIndex →
      navigate s SwipeDirection.up =
        { s with currentIndex := s.currentIndex - 1
               , depth := ViewDepth.summary
               , direction := VerticalDirection.up
               , currentConcept := none
               , conceptContent := none }) ∧
    (s.currentIndex = 0 → navigate s SwipeDirection.up = s) ∧
    (s.depth = ViewDepth.summary →
      navigate s SwipeDirection.right = { s with depth := ViewDepth.expanded }) ∧
    (s.depth = ViewDepth.expanded →
      navigate s SwipeDirection.right = { s with depth := ViewDepth.detail }) ∧
    (s.depth = ViewDepth.detail → navigate s SwipeDirection.right = s) ∧
    (strTruthy s.currentConcept = false →
      (s.depth = ViewDepth.detail →
        navigate s SwipeDirection.left = { s with depth := ViewDepth.expanded }) ∧
      (s.depth = ViewDepth.expanded →
        navigate s SwipeDirection.left = { s with depth := ViewDepth.summary }) ∧
      (s.depth = ViewDepth.summary → navigate s SwipeDirection.left = s)) ∧
    (strTruthy s.currentConcept = true →
      navigate s SwipeDirection.left = clearConceptExploration s ∧
      (navigate s SwipeDirection.left).depth = s.depth ∧
      (navigate s SwipeDirection.left).currentIndex = s.currentIndex) := by
  refine ⟨navigate_down_of_lt s, navigate_down_of_last s, navigate_up_of_pos s,
    fun h => navigate_up_of_zero s h, ?_, ?_, ?_, ?_, ?_⟩
  · intro hd; rw [navigate_right_eq, hd]
  · intro hd; rw [navigate_right_eq, hd]
  · intro hd; rw [navigate_right_eq, hd]
  · intro hc
    exact ⟨fun hd => by rw [navigate_left_no_overlay s hc, hd],
           fun hd => by rw [navigate_left_no_overlay s hc, hd],
           fun hd => by rw [navigate_left_no_overlay s hc, hd]⟩
  · intro hc
    refine ⟨navigate_left_overlay s hc, ?_, ?_⟩ <;>
      rw [navigate_left_overlay s hc] <;> rfl

/-- C1 witness: on the three-topic state at index 0, `down` advances to
index 1 with depth reset. -/
theorem navigate_transition_table_w :
    navigate demoState SwipeDirection.down =
      { demoState with currentIndex := demoState.currentIndex + 1
                     , depth := ViewDepth.summary
                     , direction := VerticalDirection.down
                     , currentConcept := none
                     , conceptContent := none } :=
  (navigate_transition_table demoState).1 (by decide)

/-- Feed state at index 0 of three topics with a concept fetch in flight
(`isExploringConcept = true`). -/
def exploringState : TopicFeedState :=
  { initialFeedState with topics := demoTopics
                        , currentConcept := some "quantum"
                        , isExploringConcept := true }

/-- C2 counterexample: a `down` move that changes the index leaves
`isExploringConcept` at `true` — `navigate` clears only `currentConcept`
and `conceptContent`, it does not perform the full
`clearConceptExploration` dismissal claimed. -/
theorem navigate_down_loading_flag_cex :
    exploringState.currentIndex + 1 < exploringState.topics.length ∧
    (navigate exploringState SwipeDirection.down).currentIndex =
      exploringState.currentIndex + 1 ∧
    (navigate exploringState SwipeDirection.down).isExploringConcept = true := by
  decide

/-- C2 (amended): whenever a `down` or `up` navigation actually changes
`currentIndex`, the resulting state has `depth = summary`,
`currentConcept = none` and `conceptContent = none`, but
`isExploringConcept` keeps its previous value (the in-flight loading flag
is not reset by navigation). -/
theorem navigate_vertical_resets (s : TopicFeedState) :
    (s.currentIndex + 1 < s.topics.length →
      (navigate s SwipeDirection.down).depth = ViewDepth.summary ∧
      (navigate s SwipeDirection.down).currentConcept = none ∧
      (navigate s SwipeDirection.down).conceptContent = none ∧
      (navigate s SwipeDirection.down).isExploringConcept = s.isExploringConcept) ∧
    (0 < s.currentIndex →
      (navigate s SwipeDirection.up).depth = ViewDepth.summary ∧
      (navigate s SwipeDirection.up).currentConcept = none ∧
      (navigate s SwipeDirection.up).conceptContent = none ∧
      (navigate s SwipeDirection.up).isExploringConcept = s.isExploringConcept) := by
  constructor
  · intro h; rw [navigate_down_of_lt s h]; exact ⟨rfl, rfl, rfl, rfl⟩
  · intro h; rw [navigate_up_of_pos s h]; exact ⟨rfl, rfl, rfl, rfl⟩

/-- C2 witness: at index 1 of three topics, both `down` and `up` change the
index; the flag is carried over and depth resets. -/
theorem navigate_vertical_resets_w :
    (navigate midState SwipeDirection.down).isExploringConcept =
      midState.isExploringConcept ∧
    (navigate midState SwipeDirection.up).depth = ViewDepth.summary :=
  ⟨((navigate_vertical_resets midState).1 (by decide)).2.2.2,
   ((navigate_vertical_resets midState).2 (by decide)).1⟩

/-! Equation lemmas for the concept-exploration flow. -/

theorem JsRecord.lookup_set_self {α : Type} (r : JsRecord α) (k : String) (v : α) :
    (r.set k v).lookup k = some v := by
  simp [JsRecord.set, JsRecord.lookup]

theorem cacheTruthy_set_some (cache : JsRecord (Option String)) (k body : String)
    (h : body ≠ "") :
    cacheTruthy (cache.set k (some body)) k = true := by
  simp [cacheTruthy, JsRecord.lookup_set_self, h]

theorem exploreConceptStart_hit (s : TopicFeedState) (c : String)
    (h : cacheTruthy s.conceptCache (normalizeConcept c) = true) :
    exploreConceptStart s c = ExploreStep.cacheHit
      { s with currentConcept := some c
             , conceptContent := (s.conceptCache.lookup (normalizeConcept c)).join
             , isExploringConcept := false } := by
  simp [exploreConceptStart, h]

theorem exploreConceptStart_miss (s : TopicFeedState) (c : String)
    (h : cacheTruthy s.conceptCache (normalizeConcept c) = false) :
    exploreConceptStart s c = ExploreStep.fetchIssued (exploreLoadingState s c) := by
  simp [exploreConceptStart, h]

theorem exploreConcept_hit_eq (s : TopicFeedState) (c : String) (r : FetchResult)
    (h : cacheTruthy s.conceptCache (normalizeConcept c) = true) :
    exploreConcept s c r =
      ({ s with currentConcept := some c
              , conceptContent := (s.conceptCache.lookup (normalizeConcept c)).join
              , isExploringConcept := false }, false) := by
  rw [exploreConcept, exploreConceptStart_hit s c h]

theorem exploreConcept_miss_eq (s : TopicFeedState) (c : String) (r : FetchResult)
    (h : cacheTruthy s.conceptCache (normalizeConcept c) = false) :
    exploreConcept s c r = (exploreConceptFinish (exploreLoadingState s c) c r, true) := by
  rw [exploreConcept, exploreConceptStart_miss s c h]

/-- C3 counterexample: two `exploreConcept` calls in a row with the same
text can issue two network requests — when the first request fails nothing
is cached, so the second call is a miss again, contradicting the claimed
unconditional "at most one network request". -/
theorem exploreConcept_two_requests_cex :
    (exploreConcept initialFeedState "quantum" FetchResult.err).2 = true ∧
    (exploreConcept (exploreConcept initialFeedState "quantum" FetchResult.err).1
        "quantum" FetchResult.err).2 = true := by
  decide

/-- C3 (amended): `exploreConcept` keys its cache by the trimmed, lower-cased
text, so inputs with the same normalized form address the same entry
(e.g. `"Quantum"` and `"quantum "`); and after a first call whose request
(if one was needed) succeeded with non-empty content, a second call with the
same normalized text is a synchronous cache hit — no network request,
`currentConcept` set to the second call's original text, `conceptContent`
to the cached value, loading flag false. -/
theorem exploreConcept_repeat_cached (s : TopicFeedState) (c1 c2 body : String)
    (r : FetchResult) (hnorm : normalizeConcept c1 = normalizeConcept c2)
    (hbody : body ≠ "") :
    (exploreConcept (exploreConcept s c1 (FetchResult.ok (some body))).1 c2 r).2 = false ∧
    (exploreConcept (exploreConcept s c1 (FetchResult.ok (some body))).1 c2 r).1.currentConcept
      = some c2 ∧
    (exploreConcept (exploreConcept s c1 (FetchResult.ok (some body))).1 c2 r).1.isExploringConcept
      = false ∧
    (exploreConcept (exploreConcept s c1 (FetchResult.ok (some body))).1 c2 r).1.conceptContent
      = ((exploreConcept s c1 (FetchResult.ok (some body))).1.conceptCache.lookup
          (normalizeConcept c2)).join ∧
    normalizeConcept "Quantum" = normalizeConcept "quantum " := by
  rcases Bool.eq_false_or_eq_true (cacheTruthy s.conceptCache (normalizeConcept c1)) with hb | hb
  · rw [exploreConcept_hit_eq s c1 _ hb]
    have h2 : cacheTruthy
        ({ s with currentConcept := some c1
                , conceptContent := (s.conceptCache.lookup (normalizeConcept c1)).join
                , isExploringConcept := false } : TopicFeedState).conceptCache
        (normalizeConcept c2) = true := by
      rw [← hnorm]; exact hb
    rw [exploreConcept_hit_eq _ c2 r h2]
    exact ⟨rfl, rfl, rfl, rfl, by decide⟩
  · rw [exploreConcept_miss_eq s c1 _ hb]
    have hcache : (exploreConceptFinish (exploreLoadingState s c1) c1
        (FetchResult.ok (some body))).conceptCache
        = s.conceptCache.set (normalizeConcept c1) (some body) := rfl
    have h2 : cacheTruthy (exploreConceptFinish (exploreLoadingState s c1) c1
        (FetchResult.ok (some body))).conceptCache (normalizeConcept c2) = true := by
      rw [hcache, ← hnorm]; exact cacheTruthy_set_some _ _ _ hbody
    rw [exploreConcept_hit_eq _ c2 r h2]
    exact ⟨rfl, rfl, rfl, rfl, by decide⟩

/-- C3 witness: after a successful first call on `"Quantum"`, a second call
on `"quantum "` (same normalized key) issues no request. -/
theorem exploreConcept_repeat_cached_w :
    (exploreConcept (exploreConcept initialFeedState "Quantum"
        (FetchResult.ok (some "E"))).1 "quantum " FetchResult.err).2 = false ∧
    normalizeConcept "Quantum" = normalizeConcept "quantum " :=
  ⟨(exploreConcept_repeat_cached initialFeedState "Quantum" "quantum " "E"
      FetchResult.err (by decide) (by decide)).1,
   (exploreConcept_repeat_cached initialFeedState "Quantum" "quantum " "E"
      FetchResult.err (by decide) (by decide)).2.2.2.2⟩

/-- C4 counterexample: the failure fallback text carries a trailing
" Please try again." sentence, so it is not exactly the message stated in
the claim. -/
theorem exploreConcept_failure_message_cex :
    (exploreConcept initialFeedState "x" FetchResult.err).1.conceptContent
      = some "Unable to research \"x\" at this time. Please try again." ∧
    (exploreConcept initialFeedState "x" FetchResult.err).1.conceptContent
      ≠ some "Unable to research \"x\" at this time." := by
  decide

/-- C4 (amended): when the request issued by a cache-missing
`exploreConcept` call fails, the call does not retry (exactly one request),
sets `conceptContent` to the fallback message
`Unable to research "<text>" at this time. Please try again.` with the
original text interpolated, clears the loading flag, and leaves
`conceptCache` completely unchanged (in particular without an entry for the
normalized key if there was none). -/
theorem exploreConcept_failure_fallback (s : TopicFeedState) (c : String)
    (hmiss : cacheTruthy s.conceptCache (normalizeConcept c) = false) :
    (exploreConcept s c FetchResult.err).2 = true ∧
    (exploreConcept s c FetchResult.err).1.currentConcept = some c ∧
    (exploreConcept s c FetchResult.err).1.conceptContent
      = some ("Unable to research \"" ++ c ++ "\" at this time. Please try again.") ∧
    (exploreConcept s c FetchResult.err).1.isExploringConcept = false ∧
    (exploreConcept s c FetchResult.err).1.conceptCache = s.conceptCache := by
  rw [exploreConcept_miss_eq s c _ hmiss]
  exact ⟨rfl, rfl, rfl, rfl, rfl⟩

/-- C4 witness: concrete failing call on `"x"` over the empty cache. -/
theorem exploreConcept_failure_fallback_w :
    (exploreConcept initialFeedState "x" FetchResult.err).2 = true ∧
    (exploreConcept initialFeedState "x" FetchResult.err).1.conceptCache
      = initialFeedState.conceptCache :=
  ⟨(exploreConcept_failure_fallback initialFeedState "x" (by decide)).1,
   (exploreConcept_failure_fallback initialFeedState "x" (by decide)).2.2.2.2⟩

/-- C5 counterexample: a completed prefetch for the highlight text
`"Quantum "` stores under the merely lower-cased key `"quantum "`, not the
trimmed key `"quantum"` that `exploreConcept` looks up — so the subsequent
`exploreConcept "Quantum "` call is a cache miss and issues a network
request, contradicting the claimed trimmed key / guaranteed hit. -/
theorem conceptPrefetchStore_untrimmed_key_cex :
    (conceptPrefetchStore initialFeedState "Quantum " (some "E")).conceptCache.lookup
        (normalizeConcept "Quantum ") = none ∧
    (exploreConcept (conceptPrefetchStore initialFeedState "Quantum " (some "E"))
        "Quantum " FetchResult.err).2 = true := by
  decide

/-- C5 (amended): a successful speculative concept prefetch writes its
result into `conceptCache` under the lower-cased (NOT trimmed) highlight
text; for highlight texts without leading or trailing whitespace this
coincides with the normalized key used by `exploreConcept`, so a completed
prefetch with non-empty content makes the subsequent `exploreConcept` call
on that text a synchronous cache hit. -/
theorem conceptPrefetchStore_explore_hit (s : TopicFeedState) (t body : String)
    (r : FetchResult) (ht : strTrim (strToLower t) = strToLower t)
    (hbody : body ≠ "") :
    (conceptPrefetchStore s t (some body)).conceptCache.lookup (strToLower t)
      = some (some body) ∧
    (exploreConcept (conceptPrefetchStore s t (some body)) t r).2 = false ∧
    (exploreConcept (conceptPrefetchStore s t (some body)) t r).1.currentConcept
      = some t ∧
    (exploreConcept (conceptPrefetchStore s t (some body)) t r).1.conceptContent
      = some body ∧
    (exploreConcept (conceptPrefetchStore s t (some body)) t r).1.isExploringConcept
      = false := by
  have hkey : normalizeConcept t = strToLower t := ht
  have hcache : (conceptPrefetchStore s t (some body)).conceptCache
      = s.conceptCache.set (strToLower t) (some body) := rfl
  have htruthy : cacheTruthy (conceptPrefetchStore s t (some body)).conceptCache
      (normalizeConcept t) = true := by
    rw [hkey, hcache]; exact cacheTruthy_set_some _ _ _ hbody
  rw [exploreConcept_hit_eq _ t r htruthy]
  refine ⟨?_, rfl, rfl, ?_, rfl⟩
  · rw [hcache]; exact JsRecord.lookup_set_self _ _ _
  · show ((conceptPrefetchStore s t (some body)).conceptCache.lookup
      (normalizeConcept t)).join = some body
    rw [hkey, hcache, JsRecord.lookup_set_self]; rfl

/-- C5 witness: prefetching `"quantum"` (no surrounding whitespace) makes
the on-demand call a request-free cache hit returning the prefetched body. -/
theorem conceptPrefetchStore_explore_hit_w :
    (exploreConcept (conceptPrefetchStore initialFeedState "quantum" (some "E"))
        "quantum" FetchResult.err).2 = false ∧
    (exploreConcept (conceptPrefetchStore initialFeedState "quantum" (some "E"))
        "quantum" FetchResult.err).1.conceptContent = some "E" :=
  ⟨(conceptPrefetchStore_explore_hit initialFeedState "quantum" "E" FetchResult.err
      (by decide) (by decide)).2.1,
   (conceptPrefetchStore_explore_hit initialFeedState "quantum" "E" FetchResult.err
      (by decide) (by decide)).2.2.2.1⟩

/-- C10: when the cache maps the normalized key to the empty string, to an
`undefined` value, or has no entry at all, the truthiness guard in
`exploreConcept` treats it as a miss: the loading state (flag true, content
cleared, concept set) is entered and a fresh network request is issued for
every possible response outcome. -/
theorem exploreConcept_falsy_cache_miss (s : TopicFeedState) (c : String)
    (hfalsy : s.conceptCache.lookup (normalizeConcept c) = some (some "") ∨
              s.conceptCache.lookup (normalizeConcept c) = some none ∨
              s.conceptCache.lookup (normalizeConcept c) = none) :
    exploreConceptStart s c = ExploreStep.fetchIssued (exploreLoadingState s c) ∧
    (exploreLoadingState s c).isExploringConcept = true ∧
    (exploreLoadingState s c).currentConcept = some c ∧
    (exploreLoadingState s c).conceptContent = none ∧
    (∀ r, (exploreConcept s c r).2 = true) := by
  have hft : cacheTruthy s.conceptCache (normalizeConcept c) = false := by
    rcases hfalsy with h | h | h <;> simp [cacheTruthy, h]
  refine ⟨exploreConceptStart_miss s c hft, rfl, rfl, rfl, fun r => ?_⟩
  rw [exploreConcept_miss_eq s c r hft]

/-- State whose concept cache holds the empty string under the key `"x"`,
as a prefetch that stored an empty response body would leave it. -/
def emptyCachedState : TopicFeedState :=
  { initialFeedState with conceptCache := [("x", some "")] }

/-- C10 witness: over a cache entry holding `""`, the call still issues a
request. -/
theorem exploreConcept_falsy_cache_miss_w :
    (exploreConcept emptyCachedState "x" FetchResult.err).2 = true :=
  (exploreConcept_falsy_cache_miss emptyCachedState "x"
    (Or.inl (by decide))).2.2.2.2 FetchResult.err

/-! Lemmas about the deep-dive prefetch loop. -/

theorem preloadLoop_mem_fst (topics : List Topic) (idxs : List Nat) :
    ∀ (p : List String) (a : String),
      a ∈ (preloadLoop p topics idxs).1 ↔ a ∈ (preloadLoop p topics idxs).2 ∨ a ∈ p := by
  induction idxs with
  | nil => intro p a; simp [preloadLoop]
  | cons i rest ih =>
      intro p a
      cases hg : topics.get? i with
      | none => simp only [preloadLoop, hg]; exact ih p a
      | some t =>
          by_cases hm : t.id ∈ p
          · simp only [preloadLoop, hg, if_pos hm]; exact ih p a
          · simp only [preloadLoop, hg, if_neg hm]
            rw [ih (t.id :: p) a]
            simp only [List.mem_cons]
            tauto

theorem preloadLoop_reqs_not_mem (topics : List Topic) (idxs : List Nat) :
    ∀ (p : List String) (a : String), a ∈ (preloadLoop p topics idxs).2 → a ∉ p := by
  induction idxs with
  | nil => intro p a ha; simp [preloadLoop] at ha
  | cons i rest ih =>
      intro p a ha
      cases hg : topics.get? i with
      | none => simp only [preloadLoop, hg] at ha; exact ih p a ha
      | some t =>
          by_cases hm : t.id ∈ p
          · simp only [preloadLoop, hg, if_pos hm] at ha; exact ih p a ha
          · simp only [preloadLoop, hg, if_neg hm] at ha
            simp only [List.mem_cons] at ha
            rcases ha with rfl | ha
            · exact hm
            · intro hp; exact ih (t.id :: p) a ha (List.mem_cons_of_mem _ hp)

theorem preloadLoop_reqs_nodup (topics : List Topic) (idxs : List Nat) :
    ∀ (p : List String), (preloadLoop p topics idxs).2.Nodup := by
  induction idxs with
  | nil => intro p; simp [preloadLoop]
  | cons i rest ih =>
      intro p
      cases hg : topics.get? i with
      | none => simp only [preloadLoop, hg]; exact ih p
      | some t =>
          by_cases hm : t.id ∈ p
          · simp only [preloadLoop, hg, if_pos hm]; exact ih p
          · simp only [preloadLoop, hg, if_neg hm]
            refine List.nodup_cons.mpr ⟨?_, ih (t.id :: p)⟩
            intro hmem
            exact preloadLoop_reqs_not_mem topics rest (t.id :: p) t.id hmem
              (List.mem_cons_self _ _)

theorem preloadLoop_reqs_src (topics : List Topic) (idxs : List Nat) :
    ∀ (p : List String) (a : String), a ∈ (preloadLoop p topics idxs).2 →
      ∃ i ∈ idxs, ∃ t, topics.get? i = some t ∧ t.id = a := by
  induction idxs with
  | nil => intro p a ha; simp [preloadLoop] at ha
  | cons i rest ih =>
      intro p a ha
      cases hg : topics.get? i with
      | none =>
          simp only [preloadLoop, hg] at ha
          obtain ⟨j, hj, w⟩ := ih p a ha
          exact ⟨j, List.mem_cons_of_mem _ hj, w⟩
      | some t =>
          by_cases hm : t.id ∈ p
          · simp only [preloadLoop, hg, if_pos hm] at ha
            obtain ⟨j, hj, w⟩ := ih p a ha
            exact ⟨j, List.mem_cons_of_mem _ hj, w⟩
          · simp only [preloadLoop, hg, if_neg hm, List.mem_cons] at ha
            rcases ha with rfl | ha
            · exact ⟨i, List.mem_cons_self _ _, t, hg, rfl⟩
            · obtain ⟨j, hj, w⟩ := ih (t.id :: p) a ha
              exact ⟨j, List.mem_cons_of_mem _ hj, w⟩

theorem preloadLoop_covers (topics : List Topic) (idxs : List Nat) :
    ∀ (p : List String) (i : Nat) (t : Topic), i ∈ idxs → topics.get? i = some t →
      t.id ∈ (preloadLoop p topics idxs).1 := by
  induction idxs with
  | nil => intro p i t hi; exact absurd hi (List.not_mem_nil i)
  | cons j rest ih =>
      intro p i t hi hg
      rcases List.mem_cons.mp hi with rfl | hi
      · by_cases hm : t.id ∈ p
        · simp only [preloadLoop, hg, if_pos hm]
          exact (preloadLoop_mem_fst topics rest p t.id).mpr (Or.inr hm)
        · simp only [preloadLoop, hg, if_neg hm]
          exact (preloadLoop_mem_fst topics rest (t.id :: p) t.id).mpr
            (Or.inr (List.mem_cons_self _ _))
      · cases hg' : topics.get? j with
        | none => simp only [preloadLoop, hg']; exact ih p i t hi hg
        | some t' =>
            by_cases hm : t'.id ∈ p
            · simp only [preloadLoop, hg', if_pos hm]; exact ih p i t hi hg
            · simp only [preloadLoop, hg', if_neg hm]
              exact ih (t'.id :: p) i t hi hg

theorem preloadDeepDive_mem_fst (p : List String) (topics : List Topic)
    (c k : Nat) (a : String) :
    a ∈ (preloadDeepDive p topics c k).1 ↔
      a ∈ (preloadDeepDive p topics c k).2 ∨ a ∈ p := by
  unfold preloadDeepDive
  cases hg : topics.get? c with
  | none =>
      simp only [hg]
      rw [preloadLoop_mem_fst]
      simp
  | some t =>
      by_cases hm : t.id ∈ p
      · simp only [hg, if_pos hm]
        rw [preloadLoop_mem_fst]
        simp
      · simp only [hg, if_neg hm]
        rw [preloadLoop_mem_fst]
        simp only [List.mem_cons, List.mem_append, List.mem_singleton]
        tauto

theorem preloadDeepDive_reqs_not_mem (p : List String) (topics : List Topic)
    (c k : Nat) (a : String) :
    a ∈ (preloadDeepDive p topics c k).2 → a ∉ p := by
  unfold preloadDeepDive
  cases hg : topics.get? c with
  | none =>
      simp only [hg, List.nil_append]
      exact preloadLoop_reqs_not_mem topics _ p a
  | some t =>
      by_cases hm : t.id ∈ p
      · simp only [hg, if_pos hm, List.nil_append]
        exact preloadLoop_reqs_not_mem topics _ p a
      · simp only [hg, if_neg hm, List.cons_append, List.nil_append, List.mem_cons]
        rintro (rfl | ha)
        · exact hm
        · intro hp
          exact preloadLoop_reqs_not_mem topics _ (t.id :: p) a ha
            (List.mem_cons_of_mem _ hp)

theorem preloadDeepDive_reqs_nodup (p : List String) (topics : List Topic)
    (c k : Nat) : (preloadDeepDive p topics c k).2.Nodup := by
  unfold preloadDeepDive
  cases hg : topics.get? c with
  | none =>
      simp only [hg, List.nil_append]
      exact preloadLoop_reqs_nodup topics _ p
  | some t =>
      by_cases hm : t.id ∈ p
      · simp only [hg, if_pos hm, List.nil_append]
        exact preloadLoop_reqs_nodup topics _ p
      · simp only [hg, if_neg hm, List.cons_append, List.nil_append]
        refine List.nodup_cons.mpr ⟨?_, preloadLoop_reqs_nodup topics _ (t.id :: p)⟩
        intro hmem
        exact preloadLoop_reqs_not_mem topics _ (t.id :: p) t.id hmem
          (List.mem_cons_self _ _)

theorem preloadDeepDive_reqs_src (p : List String) (topics : List Topic)
    (c k : Nat) (a : String) :
    a ∈ (preloadDeepDive p topics c k).2 →
      ∃ i, i < topics.length ∧
        (i = c ∨ (c + 1 ≤ i ∧ i < min (c + k + 1) topics.length)) ∧
        ∃ t, topics.get? i = some t ∧ t.id = a := by
  have hloop : ∀ (p' : List String),
      a ∈ (preloadLoop p' topics
          (List.range' (c + 1) (min (c + k + 1) topics.length - (c + 1)))).2 →
      ∃ i, i < topics.length ∧
        (i = c ∨ (c + 1 ≤ i ∧ i < min (c + k + 1) topics.length)) ∧
        ∃ t, topics.get? i = some t ∧ t.id = a := by
    intro p' ha
    obtain ⟨i, hi, t, hg, hid⟩ := preloadLoop_reqs_src topics _ p' a ha
    rw [List.mem_range'_1] at hi
    have hub : i < min (c + k + 1) topics.length := by omega
    exact ⟨i, by omega, Or.inr ⟨hi.1, hub⟩, t, hg, hid⟩
  unfold preloadDeepDive
  cases hg : topics.get? c with
  | none =>
      simp only [hg, List.nil_append]
      exact hloop p
  | some t =>
      by_cases hm : t.id ∈ p
      · simp only [hg, if_pos hm, List.nil_append]
        exact hloop p
      · simp only [hg, if_neg hm, List.cons_append, List.nil_append, List.mem_cons]
        rintro (rfl | ha)
        · have hc : c < topics.length := by
            rw [List.get?_eq_some] at hg; exact hg.1
          exact ⟨c, hc, Or.inl rfl, t, hg, rfl⟩
        · exact hloop (t.id :: p) ha

theorem preloadDeepDive_covers (p : List String) (topics : List Topic)
    (c k : Nat) (i : Nat) (t : Topic)
    (hlb : c + 1 ≤ i) (hub : i < min (c + k + 1) topics.length)
    (hg : topics.get? i = some t) (hnew : t.id ∉ p) :
    t.id ∈ (preloadDeepDive p topics c k).2 := by
  have hrange : i ∈ List.range' (c + 1) (min (c + k + 1) topics.length - (c + 1)) := by
    rw [List.mem_range'_1]; omega
  unfold preloadDeepDive
  cases hgc : topics.get? c with
  | none =>
      simp only [hgc, List.nil_append]
      have hfst' := preloadLoop_covers topics _ p i t hrange hg
      rcases (preloadLoop_mem_fst topics _ p t.id).mp hfst' with h | h
      · exact h
      · exact absurd h hnew
  | some t' =>
      by_cases hm : t'.id ∈ p
      · simp only [hgc, if_pos hm, List.nil_append]
        have hfst' := preloadLoop_covers topics _ p i t hrange hg
        rcases (preloadLoop_mem_fst topics _ p t.id).mp hfst' with h | h
        · exact h
        · exact absurd h hnew
      · simp only [hgc, if_neg hm, List.cons_append, List.nil_append, List.mem_cons]
        have hfst' := preloadLoop_covers topics _ (t'.id :: p) i t hrange hg
        rcases (preloadLoop_mem_fst topics _ (t'.id :: p) t.id).mp hfst' with h | h
        · exact Or.inr h
        · rcases List.mem_cons.mp h with h' | h'
          · exact Or.inl h'
          · exact absurd h' hnew

theorem runPreloadSession_reqs_not_mem (steps : List (List Topic × Nat × Nat)) :
    ∀ (p : List String) (a : String), a ∈ (runPreloadSession p steps).2 → a ∉ p := by
  induction steps with
  | nil => intro p a ha; simp [runPreloadSession] at ha
  | cons st rest ih =>
      intro p a ha
      obtain ⟨topics, c, k⟩ := st
      simp only [runPreloadSession, List.mem_append] at ha
      rcases ha with ha | ha
      · exact preloadDeepDive_reqs_not_mem p topics c k a ha
      · intro hp
        exact ih (preloadDeepDive p topics c k).1 a ha
          ((preloadDeepDive_mem_fst p topics c k a).mpr (Or.inr hp))

theorem runPreloadSession_nodup (steps : List (List Topic × Nat × Nat)) :
    ∀ (p : List String), (runPreloadSession p steps).2.Nodup := by
  induction steps with
  | nil => intro p; simp [runPreloadSession]
  | cons st rest ih =>
      intro p
      obtain ⟨topics, c, k⟩ := st
      simp only [runPreloadSession]
      refine (preloadDeepDive_reqs_nodup p topics c k).append
        (ih (preloadDeepDive p topics c k).1) ?_
      intro a ha hatail
      exact runPreloadSession_reqs_not_mem rest (preloadDeepDive p topics c k).1 a hatail
        ((preloadDeepDive_mem_fst p topics c k a).mpr (Or.inl ha))

/-- C6: the deep-dive prefetch engine deduplicates by topic id — every id
requested by a `preloadTopics` run was not already in the session's
already-requested set and is in the set afterwards, the requests of one run
are pairwise distinct, and over any whole session each topic id is requested
at most once; moreover every request belongs either to the current index or
to an upcoming index in `[currentIndex + 1, min (currentIndex +
preloadCount + 1) (length topics))` — never at or beyond the end of the
loaded list — and every in-range topic whose id is not already requested
does get requested. -/
theorem preloadTopics_dedup_and_bounds (p : List String) (topics : List Topic)
    (c k : Nat) (steps : List (List Topic × Nat × Nat)) :
    (∀ a ∈ (preloadDeepDive p topics c k).2,
        a ∉ p ∧ a ∈ (preloadDeepDive p topics c k).1) ∧
    (preloadDeepDive p topics c k).2.Nodup ∧
    (∀ a ∈ (preloadDeepDive p topics c k).2,
        ∃ i, i < topics.length ∧
          (i = c ∨ (c + 1 ≤ i ∧ i < min (c + k + 1) topics.length)) ∧
          ∃ t, topics.get? i = some t ∧ t.id = a) ∧
    (∀ i, c + 1 ≤ i → i < min (c + k + 1) topics.length →
        ∀ t, topics.get? i = some t → t.id ∉ p →
          t.id ∈ (preloadDeepDive p topics c k).2) ∧
    (runPreloadSession [] steps).2.Nodup := by
  refine ⟨fun a ha => ⟨preloadDeepDive_reqs_not_mem p topics c k a ha,
      (preloadDeepDive_mem_fst p topics c k a).mpr (Or.inl ha)⟩,
    preloadDeepDive_reqs_nodup p topics c k,
    fun a ha => preloadDeepDive_reqs_src p topics c k a ha,
    fun i hlb hub t hg hnew => preloadDeepDive_covers p topics c k i t hlb hub hg hnew,
    runPreloadSession_nodup steps []⟩

/-- C6 witness: on the three-topic feed with empty requested set at index 0
and preload count 2, topic `"a"` is requested, was not previously requested,
and lands in the requested set; topic `"b"` at upcoming index 1 is
requested. -/
theorem preloadTopics_dedup_and_bounds_w :
    ("a" ∉ ([] : List String) ∧ "a" ∈ (preloadDeepDive [] demoTopics 0 2).1) ∧
    "b" ∈ (preloadDeepDive [] demoTopics 0 2).2 :=
  ⟨(preloadTopics_dedup_and_bounds [] demoTopics 0 2 []).1 "a" (by decide),
   (preloadTopics_dedup_and_bounds [] demoTopics 0 2 []).2.2.2.1 1 (by decide)
     (by decide) (sampleTopic "b") (by decide) (by decide)⟩

/-! Lemmas about pagination. -/

theorem newBatchTopics_mem (topics batch : List Topic) (t : Topic) :
    t ∈ newBatchTopics topics batch ↔
      t ∈ batch ∧ t.id ∉ topics.map Topic.id ∧ titleKey t ∉ topics.map titleKey := by
  simp [newBatchTopics, List.mem_filter, and_assoc]

theorem newBatchTopics_sublist (topics batch : List Topic) :
    List.Sublist (newBatchTopics topics batch) batch := by
  unfold newBatchTopics
  exact List.filter_sublist batch

theorem loadMoreTopics_eq (s : TopicFeedState) (batch : List Topic)
    (h : s.isLoadingMore = false) :
    loadMoreTopics s batch =
      { s with topics := s.topics ++ newBatchTopics s.topics batch
             , hasMore := true
             , isLoadingMore := false } := by
  simp [loadMoreTopics, h]

/-- C7 counterexample: an incoming batch that itself contains the same topic
twice defeats the duplicate filter — each copy is only checked against the
PRE-EXISTING list, so both are appended and the resulting `topics` carries a
duplicate id, contradicting the claimed invariant. -/
theorem loadMoreTopics_duplicate_id_cex :
    ((loadMoreTopics demoState [sampleTopic "d", sampleTopic "d"]).topics.map Topic.id)
      = ["a", "b", "c", "d", "d"] ∧
    ¬ ((loadMoreTopics demoState [sampleTopic "d", sampleTopic "d"]).topics.map
        Topic.id).Nodup := by
  decide

/-- C7 (amended): when no load is already in flight, `loadMoreTopics` is
pure list growth — the previous list is a prefix of the new one and
`currentIndex` is unchanged; every topic of the result is either an old one
or a batch topic whose id and truncated-title key are absent from the
PRE-EXISTING list; consequently, whenever the incoming batch has pairwise
distinct ids (which the filter does not itself guarantee) a duplicate-free
list stays duplicate-free. -/
theorem loadMoreTopics_pure_growth (s : TopicFeedState) (batch : List Topic)
    (h : s.isLoadingMore = false) :
    s.topics <+: (loadMoreTopics s batch).topics ∧
    (loadMoreTopics s batch).currentIndex = s.currentIndex ∧
    (∀ t ∈ (loadMoreTopics s batch).topics,
        t ∈ s.topics ∨
        (t ∈ batch ∧ t.id ∉ s.topics.map Topic.id ∧
          titleKey t ∉ s.topics.map titleKey)) ∧
    ((batch.map Topic.id).Nodup → (s.topics.map Topic.id).Nodup →
      ((loadMoreTopics s batch).topics.map Topic.id).Nodup) := by
  rw [loadMoreTopics_eq s batch h]
  refine ⟨List.prefix_append _ _, rfl, ?_, ?_⟩
  · intro t ht
    rcases List.mem_append.mp ht with ht | ht
    · exact Or.inl ht
    · exact Or.inr ((newBatchTopics_mem s.topics batch t).mp ht)
  · intro hbatch hold
    rw [List.map_append]
    refine hold.append ?_ ?_
    · exact hbatch.sublist ((newBatchTopics_sublist s.topics batch).map Topic.id)
    · intro a ha hanew
      obtain ⟨t, ht, rfl⟩ := List.mem_map.mp hanew
      exact ((newBatchTopics_mem s.topics batch t).mp ht).2.1 ha

/-- C7 witness: appending a fresh batch to the three-topic state preserves
the prefix, the index, and id-uniqueness. -/
theorem loadMoreTopics_pure_growth_w :
    demoState.topics <+: (loadMoreTopics demoState [sampleTopic "d"]).topics ∧
    ((loadMoreTopics demoState [sampleTopic "d"]).topics.map Topic.id).Nodup :=
  ⟨(loadMoreTopics_pure_growth demoState [sampleTopic "d"] (by decide)).1,
   (loadMoreTopics_pure_growth demoState [sampleTopic "d"] (by decide)).2.2.2
     (by decide) (by decide)⟩

/-- C8 counterexample: a persisted entry that exists and is fresh
(`now - timestamp < 1 hour`) but carries an EMPTY topics list is not
hydrated — `fetchTopics` additionally requires `saved.topics.length > 0`
and performs a network fetch instead, contradicting the claim's
unconditional "hydrates and performs no initial network fetch". -/
theorem fetchTopicsInit_empty_topics_cex :
    (0 : Nat) - 0 < oneHour ∧
    fetchTopicsInit false false 0 (StorageRead.entry [] 0 0) = InitAction.fetch := by
  decide

/-- C8 (amended): on init (no forced refresh, not yet initialized), a
persisted entry with a NON-EMPTY topics list younger than one hour hydrates
`topics`/`currentIndex` with no network fetch and is not removed; an entry
strictly older than one hour is removed from storage and a normal fetch
occurs; and persistence read/write failures are caught and never thrown to
the caller — a failed read makes the controller proceed to a normal fetch
as if no saved state existed (removing nothing), and a failed checkpoint
write leaves the previously stored entry unchanged. -/
theorem fetchTopicsInit_storage (topics : List Topic) (ci ts now : Nat) :
    (topics ≠ [] → now - ts < oneHour →
      fetchTopicsInit false false now (StorageRead.entry topics ci ts)
        = InitAction.hydrate topics ci ∧
      (loadFromStorage now (StorageRead.entry topics ci ts)).2 = false) ∧
    (now - ts > oneHour →
      fetchTopicsInit false false now (StorageRead.entry topics ci ts)
        = InitAction.fetch ∧
      (loadFromStorage now (StorageRead.entry topics ci ts)).2 = true) ∧
    (fetchTopicsInit false false now StorageRead.failure = InitAction.fetch ∧
      (loadFromStorage now StorageRead.failure).2 = false) ∧
    (∀ stored : Option (List Topic × Nat × Nat),
      saveToStorage stored topics ci now false = stored ∧
      saveToStorage stored topics ci now true = some (topics, ci, now)) := by
  refine ⟨?_, ?_, ⟨rfl, rfl⟩, fun stored => ⟨rfl, rfl⟩⟩
  · intro hne hfresh
    have hstale : ¬ now - ts > oneHour := by omega
    have hlen : topics.length > 0 := List.length_pos.mpr hne
    constructor
    · simp [fetchTopicsInit, loadFromStorage, if_neg hstale, hlen]
    · simp [loadFromStorage, if_neg hstale]
  · intro hstale
    constructor
    · simp [fetchTopicsInit, loadFromStorage, if_pos hstale]
    · simp [loadFromStorage, if_pos hstale]

/-- C8 witness: a five-millisecond-old entry holding the three demo topics
at index 1 hydrates without fetching; a 2-hour-old entry is removed and
leads to a fetch; a failed checkpoint write at that state leaves the stored
entry as it was. -/
theorem fetchTopicsInit_storage_w :
    fetchTopicsInit false false 5 (StorageRead.entry demoTopics 1 0)
      = InitAction.hydrate demoTopics 1 ∧
    fetchTopicsInit false false (3 * oneHour) (StorageRead.entry demoTopics 1 0)
      = InitAction.fetch ∧
    (loadFromStorage (3 * oneHour) (StorageRead.entry demoTopics 1 0)).2 = true ∧
    saveToStorage (some (demoTopics, 0, 0)) demoTopics 1 5 false
      = some (demoTopics, 0, 0) :=
  ⟨((fetchTopicsInit_storage demoTopics 1 0 5).1 (by decide) (by decide)).1,
   ((fetchTopicsInit_storage demoTopics 1 0 (3 * oneHour)).2.1 (by decide)).1,
   ((fetchTopicsInit_storage demoTopics 1 0 (3 * oneHour)).2.1 (by decide)).2,
   ((fetchTopicsInit_storage demoTopics 1 0 5).2.2.2 (some (demoTopics, 0, 0))).1⟩

/-! Lemmas about the highlight segmentation. -/

theorem mem_insertByStart (g h : TopicHighlight) (l : List TopicHighlight) :
    g ∈ insertByStart h l ↔ g = h ∨ g ∈ l := by
  induction l with
  | nil => simp [insertByStart]
  | cons h' rest ih =>
      by_cases hc : h.startIndex < h'.startIndex
      · simp only [insertByStart, if_pos hc, List.mem_cons]
        try tauto
      · simp only [insertByStart, if_neg hc, List.mem_cons, ih]
        try tauto

theorem mem_sortByStart (g : TopicHighlight) (l : List TopicHighlight) :
    g ∈ sortByStart l ↔ g ∈ l := by
  induction l with
  | nil => simp [sortByStart]
  | cons h rest ih => simp [sortByStart, mem_insertByStart, ih]

theorem segLoop_highlight_mem (content : String) (l : List TopicHighlight)
    (h : TopicHighlight) (a b : Nat)
    (hr : resolveHighlight content h = some (a, b)) :
    ∀ (n : Nat), h ∈ l →
      ({ text := strSlice content a b, isHighlight := true, highlight := some h }
        : TextSegment) ∈ segLoop content l n := by
  induction l with
  | nil => intro n hmem; exact absurd hmem (List.not_mem_nil h)
  | cons h' rest ih =>
      intro n hmem
      rcases List.mem_cons.mp hmem with rfl | hmem
      · simp only [segLoop, hr]
        exact List.mem_append_right _ (List.mem_cons_self _ _)
      · cases hr' : resolveHighlight content h' with
        | none =>
            simp only [segLoop, hr']
            exact ih n hmem
        | some idxs =>
            simp only [segLoop, hr']
            exact List.mem_append_right _ (List.mem_cons_of_mem _ (ih idxs.2 hmem))

theorem segLoop_mem_src (content : String) (l : List TopicHighlight) :
    ∀ (n : Nat) (seg : TextSegment), seg ∈ segLoop content l n →
      seg.highlight = none ∨
      ∃ h ∈ l, ∃ a b, resolveHighlight content h = some (a, b) ∧
        seg = { text := strSlice content a b, isHighlight := true
              , highlight := some h } := by
  induction l with
  | nil =>
      intro n seg hseg
      rw [segLoop] at hseg
      by_cases hc : n < content.length
      · rw [if_pos hc] at hseg
        rcases List.mem_singleton.mp hseg with rfl
        exact Or.inl rfl
      · rw [if_neg hc] at hseg
        exact absurd hseg (List.not_mem_nil seg)
  | cons h rest ih =>
      intro n seg hseg
      cases hr : resolveHighlight content h with
      | none =>
          simp only [segLoop, hr] at hseg
          rcases ih n seg hseg with hl | ⟨g, hg, w⟩
          · exact Or.inl hl
          · exact Or.inr ⟨g, List.mem_cons_of_mem _ hg, w⟩
      | some idxs =>
          simp only [segLoop, hr] at hseg
          rcases List.mem_append.mp hseg with hpre | hrest
          · by_cases hc : idxs.1 > n
            · rw [if_pos hc] at hpre
              rcases List.mem_singleton.mp hpre with rfl
              exact Or.inl rfl
            · rw [if_neg hc] at hpre
              exact absurd hpre (List.not_mem_nil seg)
          · rcases List.mem_cons.mp hrest with rfl | htail
            · exact Or.inr ⟨h, List.mem_cons_self _ _, idxs.1, idxs.2, by rw [hr], rfl⟩
            · rcases ih idxs.2 seg htail with hl | ⟨g, hg, w⟩
              · exact Or.inl hl
              · exact Or.inr ⟨g, List.mem_cons_of_mem _ hg, w⟩

/-- C9: a highlight with the sentinel offsets `(0, 0)` and non-empty text is
resolved by locating the first occurrence of the text in the content — the
rendered segments then include the clickable segment containing exactly the
slice `[i, i + length text)` at the found index — and if the text does not
occur in the content the highlight is dropped silently: no segment of the
output refers to it. -/
theorem highlight_sentinel_resolution (content : String) (h : TopicHighlight)
    (hs : List TopicHighlight) (h0 : h.startIndex = 0) (h1 : h.endIndex = 0)
    (ht : h.text ≠ "") (hmem : h ∈ hs) :
    (∀ i, strIndexOf content h.text = some i →
      resolveHighlight content h = some (i, i + h.text.length) ∧
      ({ text := strSlice content i (i + h.text.length), isHighlight := true
       , highlight := some h } : TextSegment) ∈ computeSegments content hs) ∧
    (strIndexOf content h.text = none →
      ∀ seg ∈ computeSegments content hs, seg.highlight ≠ some h) := by
  have hlen : ¬ hs.length = 0 := by
    intro hc
    rw [List.length_eq_zero] at hc
    subst hc
    exact absurd hmem (List.not_mem_nil h)
  constructor
  · intro i hfound
    have hres : resolveHighlight content h = some (i, i + h.text.length) := by
      simp [resolveHighlight, h0, h1, hfound]
    refine ⟨hres, ?_⟩
    rw [computeSegments, if_neg hlen]
    exact segLoop_highlight_mem content (sortByStart hs) h i (i + h.text.length)
      hres 0 ((mem_sortByStart h hs).mpr hmem)
  · intro hnone seg hseg hbad
    rw [computeSegments, if_neg hlen] at hseg
    rcases segLoop_mem_src content (sortByStart hs) 0 seg hseg with hl | ⟨g, _, a, b, hr, hEq⟩
    · rw [hl] at hbad
      exact Option.noConfusion hbad
    · have hgh : g = h := by
        rw [hEq] at hbad
        simpa using hbad
      subst hgh
      rw [resolveHighlight] at hr
      simp [h0, h1, hnone] at hr

/-- Spec scenario content for highlight resolution. -/
def scenarioContent : String :=
  "Scientists discovered a new quantum error correction method."

/-- Spec scenario highlight with sentinel offsets. -/
def scenarioHighlight : TopicHighlight :=
  { id := "h1", text := "quantum error correction", startIndex := 0, endIndex := 0 }

/-- C9 witness: over the scenario content, the sentinel highlight resolves
to offsets `(28, 52)` and yields the clickable segment for exactly that
slice. -/
theorem highlight_sentinel_resolution_w :
    resolveHighlight scenarioContent scenarioHighlight = some (28, 52) ∧
    ({ text := strSlice scenarioContent 28 52, isHighlight := true
     , highlight := some scenarioHighlight } : TextSegment)
      ∈ computeSegments scenarioContent [scenarioHighlight] := by
  have key := (highlight_sentinel_resolution scenarioContent scenarioHighlight
      [scenarioHighlight] (by decide) (by decide) (by decide)
      (List.mem_singleton.mpr rfl)).1 28 (by decide)
  exact ⟨key.1, key.2⟩

end VibeScroll
